import Mathlib

/-!
Verification of the e-paper display subsystem of `weather_eink_pizero`:
a shallow embedding of `lib/waveshare_epd/epd4in26.py` (framebuffer codec,
busy-wait, grayscale transmission) and of `src/display_controller.py`
(refresh policy and change detection), together with theorems settling the
spec claims about them.

Machine integers: the Python code manipulates ordinary Python ints; buffer
bytes stay in `0..255` because they start at `0xFF`/computed byte values and
are only combined with byte-sized masks.  We model them as `Nat`.
`buf[i] &= ~(0x80 >> k)` (Python's infinite-precision complement) is embedded
as `&&& (0xFF ^^^ (0x80 >>> k))`, which agrees with it on values `< 256`.
-/

/-- Panel width from `epd4in26.py` (`EPD_WIDTH = 800`). -/
def EPD_WIDTH : Nat := 800

/-- Panel height from `epd4in26.py` (`EPD_HEIGHT = 480`). -/
def EPD_HEIGHT : Nat := 480

/-- Row-major traversal order of the nested loops
`for a in range(outer): for b in range(inner)`, producing the pairs
`(a, b)` in source iteration order. -/
def pairList (outer inner : Nat) : List (Nat × Nat) :=
  (List.range outer).flatMap (fun a => (List.range inner).map (fun b => (a, b)))

/-- Loop body of the matching-orientation branch of `EPD.getbuffer`
(`epd4in26.py` lines 288-293): for pair `p = (y, x)`, if the pixel is black
(`pixels[x, y] == 0`) clear bit `7 - x % 8` of byte `(x + y * W) / 8`. -/
def clearStep (W : Nat) (pix : Nat → Nat → Nat) (b : Array Nat) (p : Nat × Nat) : Array Nat :=
  if pix p.2 p.1 = 0 then
    b.modify ((p.2 + p.1 * W) / 8) (fun v => v &&& (0xFF ^^^ (0x80 >>> (p.2 % 8))))
  else b

/-- Loop body of the transposed-orientation branch of `EPD.getbuffer`
(`epd4in26.py` lines 294-301): with `newx = y` and `newy = H - x - 1`,
clear bit `7 - y % 8` of byte `(newx + newy * W) / 8` when the pixel is
black.  The pair is `p = (y, x)` in source loop order. -/
def clearStepT (W H : Nat) (pix : Nat → Nat → Nat) (b : Array Nat) (p : Nat × Nat) : Array Nat :=
  if pix p.2 p.1 = 0 then
    b.modify ((p.1 + (H - p.2 - 1) * W) / 8) (fun v => v &&& (0xFF ^^^ (0x80 >>> (p.1 % 8))))
  else b

/-- Embedding of `EPD.getbuffer` (`epd4in26.py` lines 282-302), the
monochrome encoder (the spec's `encodeMonochrome`).  `W`, `H` are the
session's `self.width`, `self.height`; `imw`, `imh` the image's size after
`convert('1')`; `pix x y` the pixel at column `x`, row `y` (0 = black).
The buffer starts as `W / 8 * H` bytes of `0xFF`; when the image matches
neither orientation no branch runs and the untouched buffer is returned
(the source has no `else` clause). -/
def epdGetbuffer (W H imw imh : Nat) (pix : Nat → Nat → Nat) : Array Nat :=
  let buf := Array.mkArray (W / 8 * H) 0xFF
  if imw = W ∧ imh = H then
    (pairList imh imw).foldl (clearStep W pix) buf
  else if imw = H ∧ imh = W then
    (pairList imh imw).foldl (clearStepT W H pix) buf
  else buf

/-- The in-place luminance remap of `EPD.getbuffer_4Gray`
(`epd4in26.py` lines 315-318 and 329-332): `0xC0 ↦ 0x80`, `0x80 ↦ 0x40`,
all other values unchanged. -/
def gray4Remap (v : Nat) : Nat :=
  if v = 0xC0 then 0x80 else if v = 0x80 then 0x40 else v

/-- Loop body of the matching-orientation branch of `EPD.getbuffer_4Gray`
(`epd4in26.py` lines 311-321).  The state is `(pixels, i, buf)`: the pixel
map of the working copy (mutated in place by the remap), the global pixel
counter `i`, and the output buffer.  Pair `p = (y, x)`.  Every fourth pixel
the packed byte of the last four (already remapped) pixels of the row is
stored at `(x + y * W) / 4`. -/
def gray4StepM (W : Nat) (st : (Nat → Nat → Nat) × Nat × Array Nat) (p : Nat × Nat) :
    (Nat → Nat → Nat) × Nat × Array Nat :=
  let y := p.1
  let x := p.2
  let px := st.1
  let px1 := fun a b => if a = x ∧ b = y then gray4Remap (px x y) else px a b
  let i1 := st.2.1 + 1
  let buf1 :=
    if i1 % 4 = 0 then
      st.2.2.setD ((x + y * W) / 4)
        ((px1 (x - 3) y &&& 0xC0) ||| ((px1 (x - 2) y &&& 0xC0) >>> 2) |||
          ((px1 (x - 1) y &&& 0xC0) >>> 4) ||| ((px1 x y &&& 0xC0) >>> 6))
    else st.2.2
  (px1, i1, buf1)

/-- Loop body of the transposed-orientation branch of `EPD.getbuffer_4Gray`
(`epd4in26.py` lines 323-335).  Here the outer loop runs over `x` and the
inner over `y`, so the pair is `p = (x, y)`; with `newx = y`,
`newy = H - x - 1` the packed byte of the last four pixels of the column is
stored at `(newx + newy * W) / 4`. -/
def gray4StepT (W H : Nat) (st : (Nat → Nat → Nat) × Nat × Array Nat) (p : Nat × Nat) :
    (Nat → Nat → Nat) × Nat × Array Nat :=
  let x := p.1
  let y := p.2
  let px := st.1
  let px1 := fun a b => if a = x ∧ b = y then gray4Remap (px x y) else px a b
  let i1 := st.2.1 + 1
  let buf1 :=
    if i1 % 4 = 0 then
      st.2.2.setD ((y + (H - x - 1) * W) / 4)
        ((px1 x (y - 3) &&& 0xC0) ||| ((px1 x (y - 2) &&& 0xC0) >>> 2) |||
          ((px1 x (y - 1) &&& 0xC0) >>> 4) ||| ((px1 x y &&& 0xC0) >>> 6))
    else st.2.2
  (px1, i1, buf1)

/-- Embedding of `EPD.getbuffer_4Gray` (`epd4in26.py` lines 304-336), the
2-bit grayscale encoder (the spec's `encodeGrayscale`).  The pixel map given
to the loop models `image.convert('L')`, which in PIL returns a fresh copy
of the caller's image; the in-place remap performed by the loop therefore
mutates only this working copy, which is discarded, and `pix` itself (the
caller's pixel data) is immutable here exactly as it is unreachable there. -/
def getbuffer_4Gray (W H imw imh : Nat) (pix : Nat → Nat → Nat) : Array Nat :=
  let buf := Array.mkArray (W / 4 * H) 0xFF
  if imw = W ∧ imh = H then
    ((pairList imh imw).foldl (gray4StepM W) (pix, 0, buf)).2.2
  else if imw = H ∧ imh = W then
    ((pairList imw imh).foldl (gray4StepT W H) (pix, 0, buf)).2.2
  else buf

/-- First-bitplane threshold of `EPD.display_4Gray` (`epd4in26.py` lines
385-400): on `temp2 = temp1 & 0xC0` the source sets bit `1` for `0x00` and
`0x80`, bit `0` for `0xC0` and for the remaining value (`0x40`). -/
def plane1BitOf (t : Nat) : Nat :=
  if t &&& 0xC0 = 0xC0 then 0
  else if t &&& 0xC0 = 0x00 then 1
  else if t &&& 0xC0 = 0x80 then 1
  else 0

/-- Second-bitplane threshold of `EPD.display_4Gray` (`epd4in26.py` lines
417-432): bit `0` for `0xC0` and `0x80`, bit `1` for `0x00` and the
remaining value (`0x40`). -/
def plane2BitOf (t : Nat) : Nat :=
  if t &&& 0xC0 = 0xC0 then 0
  else if t &&& 0xC0 = 0x00 then 1
  else if t &&& 0xC0 = 0x80 then 0
  else 1

/-- One output byte of a `display_4Gray` plane: the source's `temp3`
accumulator over the two input bytes `u = image[2*i]`, `v = image[2*i+1]`,
taking a 2-bit sample (`temp1 & 0xC0` after successive `temp1 <<= 2`),
or-ing in one output bit per sample and shifting left after every sample
except the last. -/
def gray4OutByte (bitf : Nat → Nat) (u v : Nat) : Nat :=
  let t3 := 0 ||| bitf u
  let t3 := t3 <<< 1
  let u1 := u <<< 2
  let t3 := t3 ||| bitf u1
  let t3 := t3 <<< 1
  let u2 := u1 <<< 2
  let t3 := t3 ||| bitf u2
  let t3 := t3 <<< 1
  let u3 := u2 <<< 2
  let t3 := t3 ||| bitf u3
  let t3 := t3 <<< 1
  let t3 := t3 ||| bitf v
  let t3 := t3 <<< 1
  let v1 := v <<< 2
  let t3 := t3 ||| bitf v1
  let t3 := t3 <<< 1
  let v2 := v1 <<< 2
  let t3 := t3 ||| bitf v2
  let t3 := t3 <<< 1
  let v3 := v2 <<< 2
  let t3 := t3 ||| bitf v3
  t3

/-- The data bytes of one `display_4Gray` plane for the indices in `l`
(the source iterates `i in range(0, 48000)`, reading `image[i*2+j]` for
`j in range(0, 2)`); `none` models the `IndexError` raised by a read past
the end of the buffer. -/
def planeLoop (bitf : Nat → Nat) (img : List Nat) : List Nat → Option (List Nat)
  | [] => some []
  | i :: rest =>
    match img.get? (i * 2), img.get? (i * 2 + 1) with
    | some u, some v =>
      match planeLoop bitf img rest with
      | some l => some (gray4OutByte bitf u v :: l)
      | none => none
    | _, _ => none

/-- One transmitted item: a command byte (`send_command`, DC low) or a data
byte (`send_data`, DC high). -/
inductive EpdTx where
  | cmd (b : Nat)
  | dat (b : Nat)
deriving DecidableEq

/-- Embedding of `EPD.display_4Gray` (`epd4in26.py` lines 380-445) as the
transcript of bytes it sends: command `0x24`, 48000 first-plane data bytes,
command `0x26`, 48000 second-plane data bytes, then the
`TurnOnDisplay_4GRAY` activation (`0x22`, data `0xC7`, `0x20`).  The
parameters `width` and `height` are the session fields `self.width` and
`self.height`; the source never consults them — both loop bounds and the
`image` index range are the fixed literals `48000` and `i*2+j`. -/
def display_4Gray (width height : Nat) (img : List Nat) : Option (List EpdTx) :=
  match planeLoop plane1BitOf img (List.range 48000),
        planeLoop plane2BitOf img (List.range 48000) with
  | some p1, some p2 =>
    some ((EpdTx.cmd 0x24 :: p1.map EpdTx.dat) ++
      (EpdTx.cmd 0x26 :: p2.map EpdTx.dat) ++
      [EpdTx.cmd 0x22, EpdTx.dat 0xC7, EpdTx.cmd 0x20])
  | _, _ => none

/-- Loop of `EPD.ReadBusy` (`epd4in26.py` lines 86-93).  `trace k` is the
busy line's level at the `k`-th read (the source treats any value other
than `1` as idle); `busy` is the value just read (read number `reads - 1`,
zero-based), `delayed` the milliseconds slept so far.  Each loop iteration
re-reads the line and sleeps 20 ms; on exit one further 20 ms grace delay
is taken (the source's trailing `delay_ms(20)`), returned separately as the
third component of `(reads, loop delay, grace delay)`.  The source loop is
unbounded; `fuel` makes the embedding total, and `none` means the busy line
stayed asserted for all `fuel` polls. -/
def readBusyGo (trace : Nat → Nat) (busy reads delayed : Nat) : Nat → Option (Nat × Nat × Nat)
  | 0 => if busy = 1 then none else some (reads, delayed, 20)
  | fuel + 1 =>
    if busy = 1 then readBusyGo trace (trace reads) (reads + 1) (delayed + 20) fuel
    else some (reads, delayed, 20)

/-- Embedding of `EPD.ReadBusy`: one initial read, then the poll loop. -/
def ReadBusy (trace : Nat → Nat) (fuel : Nat) : Option (Nat × Nat × Nat) :=
  readBusyGo trace (trace 0) 1 0 fuel

/-- Errors a display-driver call can raise (the spec's `BusTransactionError`
taxonomy); the controller model is parametric in the outcome of the driver
call, so a single constructor suffices. -/
inductive DriverError where
  | busError
deriving DecidableEq

/-- Mutable state of `DisplayController` relevant to the refresh policy
(`display_controller.py` lines 177-185): the stored image fingerprint
`last_image_hash`, the wear counter `partial_refresh_count`, its bound
`partial_refresh_limit`, and the `partial_refresh` preference flag. -/
structure CtrlState where
  lastImageHash : Option Nat
  partialRefreshCount : Nat
  partialRefreshLimit : Nat
  partialRefreshEnabled : Bool
deriving DecidableEq

/-- Skip condition of `DisplayController.update_display`
(`display_controller.py` line 290): skip when not forced and the new image
hash equals the stored one. -/
def shouldSkip (st : CtrlState) (h : Nat) (force : Bool) : Bool :=
  !force && (st.lastImageHash == some h)

/-- The spec's `shouldUpdate(newFingerprint, forceUpdate)`: the negation of
the source's skip condition — update when forced or when the fingerprint
differs from the stored one. -/
def shouldUpdateB (st : CtrlState) (h : Nat) (force : Bool) : Bool :=
  !(shouldSkip st h force)

/-- Refresh-mode choice of `update_display` (`display_controller.py` lines
300-303): partial exactly when the preference flag is set and the wear
counter is below its limit. -/
def wantsPartialRefresh (st : CtrlState) : Bool :=
  st.partialRefreshEnabled && decide (st.partialRefreshCount < st.partialRefreshLimit)

/-- Embedding of `DisplayController.update_display` (`display_controller.py`
lines 282-328).  `h` is the rendered image's hash, `tx` the outcome of the
driver call (`_display_partial_refresh` / `_display_full_refresh`, which
re-raise their errors).  The whole body runs inside `try/except Exception`:
a driver error is caught, logged and turned into the return value `False`,
before the counter mutation and the hash store are reached — so the result
type is `Except` but an error outcome is mapped to `.ok (st, false)`, never
propagated.  On success a partial refresh increments the counter, a full
refresh resets it to 0, and the new hash is stored. -/
def update_display (st : CtrlState) (h : Nat) (force : Bool) (tx : Except DriverError Unit) :
    Except DriverError (CtrlState × Bool) :=
  if shouldSkip st h force then Except.ok (st, false)
  else
    match tx with
    | Except.error _ => Except.ok (st, false)
    | Except.ok _ =>
      if wantsPartialRefresh st then
        Except.ok (⟨some h, st.partialRefreshCount + 1, st.partialRefreshLimit,
          st.partialRefreshEnabled⟩, true)
      else
        Except.ok (⟨some h, 0, st.partialRefreshLimit, st.partialRefreshEnabled⟩, true)

/-- The spec's scenario of repeated successful refresh requests with partial
refresh preferred: `n` successive `update_display` calls, each forced (so
none is skipped) and each with a successful driver transaction. -/
def runPartialSeq (st : CtrlState) : Nat → CtrlState
  | 0 => st
  | n + 1 =>
    match update_display (runPartialSeq st n) 0 true (Except.ok ()) with
    | Except.ok r => r.1
    | Except.error _ => runPartialSeq st n

/-- First-plane bit rule exactly as the spec sentence states it
(spec §4.2: "First plane: sample == 0xC0 ⇒ bit 0, else ⇒ bit 1"), for
comparison with the source's `plane1BitOf`. -/
def specFirstPlaneBit (t : Nat) : Nat :=
  if t &&& 0xC0 = 0xC0 then 0 else 1

/-- The value of one packed byte of the matching-orientation branch of
`getbuffer` for the 800×480 panel: byte `i` collects the eight pixels
`x = 8 * (i % 100) + k`, `k < 8`, of row `i / 100`, starting from the
background `0xFF` and clearing bit `7 - k` for each black pixel. -/
def byteFoldH (pix : Nat → Nat → Nat) (i : Nat) : Nat :=
  (List.range 8).foldl
    (fun v k => if pix (8 * (i % 100) + k) (i / 100) = 0 then v &&& (0xFF ^^^ (0x80 >>> k)) else v)
    0xFF

/-- Rotation by 90° (counterclockwise, as PIL's `rotate(90, expand=True)`)
taking a 480-wide, 800-tall image to the 800-wide, 480-tall panel
orientation: pixel `(x, y)` of the original appears at `(y, 479 - x)`, so
the rotated image reads `rotatePix pix a b = pix (479 - b) a`. -/
def rotatePix (pix : Nat → Nat → Nat) : Nat → Nat → Nat :=
  fun a b => pix (479 - b) a


lemma readBusyGo_spec (trace : Nat → Nat) :
    ∀ (m r delayed fuel : Nat), m ≤ fuel →
      (∀ k, k < m → trace (r + k) = 1) →
      trace (r + m) = 0 →
      readBusyGo trace (trace r) (r + 1) delayed fuel =
        some (r + 1 + m, delayed + 20 * m, 20) := by
  intro m
  induction m with
  | zero =>
    intro r delayed fuel _ _ hidle
    have h0 : trace r = 0 := by simpa using hidle
    cases fuel <;> simp [readBusyGo, h0]
  | succ m ih =>
    intro r delayed fuel hfuel hbusy hidle
    cases fuel with
    | zero => omega
    | succ f =>
      have hmf : m ≤ f := by omega
      have h0 : trace r = 1 := by simpa using hbusy 0 (Nat.succ_pos m)
      have step : readBusyGo trace (trace r) (r + 1) delayed (f + 1) =
          readBusyGo trace (trace (r + 1)) (r + 1 + 1) (delayed + 20) f := by
        simp [readBusyGo, h0]
      have hb : ∀ k, k < m → trace (r + 1 + k) = 1 := by
        intro k hk
        have := hbusy (k + 1) (by omega)
        simpa [Nat.add_assoc, Nat.add_comm 1 k] using this
      have hi : trace (r + 1 + m) = 0 := by
        have he : r + 1 + m = r + (m + 1) := by omega
        rw [he]; exact hidle
      have hrec := ih (r + 1) (delayed + 20) f hmf hb hi
      rw [step, hrec]
      simp only [Option.some.injEq, Prod.mk.injEq]
      exact ⟨by omega, by omega, trivial⟩

/-- C3: for a busy trace that reports busy for the first `N` polls and idle
at the `N`-th read, `ReadBusy` performs exactly `N + 1` reads, sleeps 20 ms
per loop iteration (`20 * N` in total) plus one trailing 20 ms grace delay
equal to the poll interval, so its total blocking time is exactly the bound
`20 * (N + 1)` ms determined by the trace. -/
theorem c3_wait_until_idle (N : Nat) (trace : Nat → Nat) (fuel : Nat)
    (hbusy : ∀ k, k < N → trace k = 1) (hidle : trace N = 0) (hfuel : N ≤ fuel) :
    ReadBusy trace fuel = some (N + 1, 20 * N, 20) ∧ 20 * N + 20 = 20 * (N + 1) := by
  constructor
  · have := readBusyGo_spec trace N 0 0 fuel hfuel
      (by intro k hk; simpa using hbusy k hk) (by simpa using hidle)
    simpa [ReadBusy, Nat.add_comm] using this
  · omega

/-- Witness for `c3_wait_until_idle`: a trace busy for 2 polls then idle. -/
theorem c3_wait_until_idle_witness :
    ReadBusy (fun k => if k < 2 then 1 else 0) 2 = some (3, 40, 20) ∧
      20 * 2 + 20 = 20 * (2 + 1) :=
  c3_wait_until_idle 2 (fun k => if k < 2 then 1 else 0) 2
    (by decide) (by decide) (by decide)

lemma runPartialSeq_counts (st : CtrlState) (hE : st.partialRefreshEnabled = true)
    (hC : st.partialRefreshCount = 0) :
    ∀ k, k ≤ st.partialRefreshLimit →
      (runPartialSeq st k).partialRefreshCount = k ∧
      (runPartialSeq st k).partialRefreshLimit = st.partialRefreshLimit ∧
      (runPartialSeq st k).partialRefreshEnabled = true := by
  intro k
  induction k with
  | zero => intro _; exact ⟨hC, rfl, hE⟩
  | succ k ih =>
    intro hk
    obtain ⟨hcnt, hlim, hen⟩ := ih (by omega)
    have hwp : wantsPartialRefresh (runPartialSeq st k) = true := by
      simp [wantsPartialRefresh, hen, hcnt, hlim]
      omega
    simp [runPartialSeq, update_display, shouldSkip, hwp, hcnt, hlim, hen]

/-- C4: the refresh-mode policy of `update_display`.  (i) Partial mode is
selected exactly when the partial-refresh preference flag is set and the
wear counter is below its limit; (ii) a successful non-skipped update
increments the counter in partial mode and resets it to 0 in full mode,
storing the new hash; (iii) starting from a zero counter with partial
refresh preferred, the first `partialRefreshLimit` successful refreshes all
select partial mode with the counter counting up, the next request selects
full mode, and after it the counter is back to 0. -/
theorem c4_partial_refresh_bound :
    (∀ st : CtrlState, wantsPartialRefresh st = true ↔
      (st.partialRefreshEnabled = true ∧
        st.partialRefreshCount < st.partialRefreshLimit)) ∧
    (∀ (st : CtrlState) (h : Nat) (force : Bool),
      shouldSkip st h force = false →
      update_display st h force (Except.ok ()) =
        Except.ok (⟨some h,
          if wantsPartialRefresh st then st.partialRefreshCount + 1 else 0,
          st.partialRefreshLimit, st.partialRefreshEnabled⟩, true)) ∧
    (∀ st : CtrlState, st.partialRefreshEnabled = true →
      st.partialRefreshCount = 0 →
      (∀ k, k < st.partialRefreshLimit →
        wantsPartialRefresh (runPartialSeq st k) = true ∧
        (runPartialSeq st k).partialRefreshCount = k) ∧
      wantsPartialRefresh (runPartialSeq st st.partialRefreshLimit) = false ∧
      (runPartialSeq st (st.partialRefreshLimit + 1)).partialRefreshCount = 0) := by
  refine ⟨?_, ?_, ?_⟩
  · intro st
    simp [wantsPartialRefresh]
  · intro st h force hskip
    simp only [update_display, hskip, Bool.false_eq_true, if_false]
    split <;> rfl
  · intro st hE hC
    obtain ⟨hcnt, hlim, hen⟩ := runPartialSeq_counts st hE hC st.partialRefreshLimit le_rfl
    refine ⟨?_, ?_, ?_⟩
    · intro k hk
      obtain ⟨hc, hl, he⟩ := runPartialSeq_counts st hE hC k (by omega)
      constructor
      · simp [wantsPartialRefresh, he, hc, hl]; omega
      · exact hc
    · simp [wantsPartialRefresh, hen, hcnt, hlim]
    · have hwp : wantsPartialRefresh (runPartialSeq st st.partialRefreshLimit) = false := by
        simp [wantsPartialRefresh, hen, hcnt, hlim]
      simp [runPartialSeq, update_display, shouldSkip, hwp]

/-- Witness for `c4_partial_refresh_bound`: with limit 2 and counter 0, the
first two requests take partial mode, the third takes full mode and resets
the counter. -/
theorem c4_partial_refresh_bound_witness :
    wantsPartialRefresh (runPartialSeq ⟨none, 0, 2, true⟩ 2) = false ∧
      (runPartialSeq ⟨none, 0, 2, true⟩ 3).partialRefreshCount = 0 :=
  ⟨(c4_partial_refresh_bound.2.2 ⟨none, 0, 2, true⟩ rfl rfl).2.1,
    (c4_partial_refresh_bound.2.2 ⟨none, 0, 2, true⟩ rfl rfl).2.2⟩

/-- Counterexample for C5 as stated: with image A's hash already stored
(say from an earlier successful transmission), a forced retransmission of A
that fails leaves the fingerprint unchanged — but a subsequent unforced
request with the same image A is then flagged `shouldUpdate = false`
(skipped), not `true` as the claim asserts for every failing
transmission. -/
theorem c5_counterexample :
    update_display ⟨some 7, 0, 10, true⟩ 7 true (Except.error DriverError.busError) =
      Except.ok (⟨some 7, 0, 10, true⟩, false) ∧
    shouldUpdateB ⟨some 7, 0, 10, true⟩ 7 false = false := by
  constructor
  · rfl
  · rfl

/-- C5 (amended): if a driver error occurs during a transmission that was
triggered by a content change (the image's fingerprint differs from the
stored one), the stored fingerprint and the whole controller state are left
unchanged and the update reports failure, so a subsequent request with the
same image is still flagged `shouldUpdate = true`.  (A transmission forced
with `forceUpdate` for content whose fingerprint is already stored does not
satisfy the hypothesis: after such a failure the next unforced request is
skipped.) -/
theorem c5_failed_transmission_keeps_fingerprint (st : CtrlState) (h : Nat) (force : Bool)
    (e : DriverError) (hne : st.lastImageHash ≠ some h) :
    update_display st h force (Except.error e) = Except.ok (st, false) ∧
    shouldUpdateB st h false = true := by
  have hskip : ∀ f : Bool, shouldSkip st h f = false := by
    intro f
    simp [shouldSkip, hne]
  constructor
  · simp [update_display, hskip]
  · simp [shouldUpdateB, hskip]

/-- Witness for `c5_failed_transmission_keeps_fingerprint`: stored hash 3,
new image hash 4, failing bus transaction. -/
theorem c5_failed_transmission_keeps_fingerprint_witness :
    (some 3 ≠ some 4) ∧
    (update_display ⟨some 3, 0, 10, true⟩ 4 false (Except.error DriverError.busError) =
      Except.ok (⟨some 3, 0, 10, true⟩, false) ∧
    shouldUpdateB ⟨some 3, 0, 10, true⟩ 4 false = true) :=
  ⟨by decide,
    c5_failed_transmission_keeps_fingerprint ⟨some 3, 0, 10, true⟩ 4 false
      DriverError.busError (by decide)⟩

/-- Counterexample for C6 as stated: a driver error raised during the
refresh is not propagated to `update_display`'s caller — the `except`
clause catches it and the call returns `Except.ok (st, false)` (the
source's `return False`), which is not an `Except.error` outcome. -/
theorem c6_counterexample :
    update_display ⟨none, 3, 10, true⟩ 5 false (Except.error DriverError.busError) =
      Except.ok (⟨none, 3, 10, true⟩, false) ∧
    Except.ok ((⟨none, 3, 10, true⟩ : CtrlState), false) ≠
      (Except.error DriverError.busError : Except DriverError (CtrlState × Bool)) := by
  constructor
  · rfl
  · simp

/-- C6 (amended): a driver error during a refresh request is caught by
`update_display`, which reports the failed update by returning `false` to
its caller instead of re-raising, and the controller state — in particular
the partial-refresh counter and its limit — is left completely
unmutated. -/
theorem c6_error_caught_counters_unchanged (st : CtrlState) (h : Nat) (force : Bool)
    (e : DriverError) :
    update_display st h force (Except.error e) = Except.ok (st, false) := by
  unfold update_display
  split
  · rfl
  · rfl

lemma plane1BitOf_le_one (t : Nat) : plane1BitOf t ≤ 1 := by
  unfold plane1BitOf
  split_ifs <;> simp

lemma plane2BitOf_le_one (t : Nat) : plane2BitOf t ≤ 1 := by
  unfold plane2BitOf
  split_ifs <;> simp

lemma gray4Chain (b0 b1 b2 b3 b4 b5 b6 b7 : Nat)
    (h0 : b0 ≤ 1) (h1 : b1 ≤ 1) (h2 : b2 ≤ 1) (h3 : b3 ≤ 1)
    (h4 : b4 ≤ 1) (h5 : b5 ≤ 1) (h6 : b6 ≤ 1) (h7 : b7 ≤ 1) :
    ((((((((((((((0 ||| b0) <<< 1) ||| b1) <<< 1) ||| b2) <<< 1) ||| b3) <<< 1) |||
      b4) <<< 1) ||| b5) <<< 1) ||| b6) <<< 1) ||| b7 =
      128 * b0 + 64 * b1 + 32 * b2 + 16 * b3 + 8 * b4 + 4 * b5 + 2 * b6 + b7 := by
  interval_cases b0 <;> interval_cases b1 <;> interval_cases b2 <;> interval_cases b3 <;>
    interval_cases b4 <;> interval_cases b5 <;> interval_cases b6 <;> interval_cases b7 <;>
    decide

lemma gray4OutByte_eq_sum (bitf : Nat → Nat) (hb : ∀ t, bitf t ≤ 1) (u v : Nat) :
    gray4OutByte bitf u v =
      128 * bitf u + 64 * bitf (u <<< 2) + 32 * bitf (u <<< 2 <<< 2) +
        16 * bitf (u <<< 2 <<< 2 <<< 2) + 8 * bitf v + 4 * bitf (v <<< 2) +
        2 * bitf (v <<< 2 <<< 2) + bitf (v <<< 2 <<< 2 <<< 2) := by
  have hch : gray4OutByte bitf u v =
      ((((((((((((((0 ||| bitf u) <<< 1) ||| bitf (u <<< 2)) <<< 1) |||
        bitf (u <<< 2 <<< 2)) <<< 1) ||| bitf (u <<< 2 <<< 2 <<< 2)) <<< 1) |||
        bitf v) <<< 1) ||| bitf (v <<< 2)) <<< 1) ||| bitf (v <<< 2 <<< 2)) <<< 1) |||
        bitf (v <<< 2 <<< 2 <<< 2) := rfl
  rw [hch]
  exact gray4Chain _ _ _ _ _ _ _ _ (hb _) (hb _) (hb _) (hb _) (hb _) (hb _) (hb _) (hb _)

lemma planeLoop_eq_map (bitf : Nat → Nat) (img : List Nat) :
    ∀ l : List Nat, (∀ i ∈ l, i * 2 + 1 < img.length) →
      planeLoop bitf img l =
        some (l.map fun i => gray4OutByte bitf (img.getD (i * 2) 0) (img.getD (i * 2 + 1) 0)) := by
  intro l
  induction l with
  | nil => intro _; simp [planeLoop]
  | cons i rest ih =>
    intro hin
    have h2 : i * 2 + 1 < img.length := hin i (by simp)
    have h1 : i * 2 < img.length := by omega
    have g1 : img.get? (i * 2) = some (img.getD (i * 2) 0) := by
      rw [List.get?_eq_getElem?, List.getD_eq_getElem?_getD, List.getElem?_eq_getElem h1]
      rfl
    have g2 : img.get? (i * 2 + 1) = some (img.getD (i * 2 + 1) 0) := by
      rw [List.get?_eq_getElem?, List.getD_eq_getElem?_getD, List.getElem?_eq_getElem h2]
      rfl
    have hrest := ih (fun j hj => hin j (List.mem_cons_of_mem i hj))
    simp only [planeLoop, g1, g2, hrest, List.map_cons]

lemma planeLoop_none (bitf : Nat → Nat) (img : List Nat) :
    ∀ l : List Nat, (∃ i ∈ l, img.length ≤ i * 2 + 1) → planeLoop bitf img l = none := by
  intro l
  induction l with
  | nil => intro h; simp at h
  | cons i rest ih =>
    intro h
    obtain ⟨j, hj, hlen⟩ := h
    rcases List.mem_cons.mp hj with hj | hj
    · subst hj
      have g2 : img.get? (j * 2 + 1) = none := by
        rw [List.get?_eq_getElem?, List.getElem?_eq_none_iff]
        exact hlen
      cases hg1 : img.get? (j * 2) with
      | none => simp only [planeLoop, hg1]
      | some u => simp only [planeLoop, hg1, g2]
    · have hrest := ih ⟨j, hj, hlen⟩
      cases hg1 : img.get? (i * 2) with
      | none => simp only [planeLoop, hg1]
      | some u =>
        cases hg2 : img.get? (i * 2 + 1) with
        | none => simp only [planeLoop, hg1, hg2]
        | some v => simp only [planeLoop, hg1, hg2, hrest]

lemma range48000_indices_lt (img : List Nat) (hlen : 96000 ≤ img.length) :
    ∀ i ∈ List.range 48000, i * 2 + 1 < img.length := by
  intro i hi
  have : i < 48000 := List.mem_range.mp hi
  omega

/-- C10: `display_4Gray` ignores the session's configured `width` and
`height` fields entirely; it always emits exactly 48000 data bytes to frame
register `0x24` and then exactly 48000 data bytes to `0x26`, reading the
source buffer at the fixed index range `0 .. 95999`; it succeeds exactly
when the buffer holds at least 96000 bytes (a full 800×480 2-bit frame) and
raises an out-of-range access (`none`) on any shorter buffer. -/
theorem c10_display_4Gray_fixed_range :
    (∀ w h w2 h2 img, display_4Gray w h img = display_4Gray w2 h2 img) ∧
    (∀ w h (img : List Nat), (display_4Gray w h img).isSome = true ↔ 96000 ≤ img.length) ∧
    (∀ w h (img : List Nat), 96000 ≤ img.length →
      ∃ p1 p2, planeLoop plane1BitOf img (List.range 48000) = some p1 ∧
        planeLoop plane2BitOf img (List.range 48000) = some p2 ∧
        p1.length = 48000 ∧ p2.length = 48000 ∧
        display_4Gray w h img =
          some ((EpdTx.cmd 0x24 :: p1.map EpdTx.dat) ++
            (EpdTx.cmd 0x26 :: p2.map EpdTx.dat) ++
            [EpdTx.cmd 0x22, EpdTx.dat 0xC7, EpdTx.cmd 0x20])) := by
  have hsome : ∀ (bitf : Nat → Nat) (img : List Nat), 96000 ≤ img.length →
      planeLoop bitf img (List.range 48000) =
        some ((List.range 48000).map fun i =>
          gray4OutByte bitf (img.getD (i * 2) 0) (img.getD (i * 2 + 1) 0)) :=
    fun bitf img hlen => planeLoop_eq_map bitf img _ (range48000_indices_lt img hlen)
  have hnone : ∀ (bitf : Nat → Nat) (img : List Nat), img.length < 96000 →
      planeLoop bitf img (List.range 48000) = none := by
    intro bitf img hlen
    exact planeLoop_none bitf img _ ⟨47999, List.mem_range.mpr (by omega), by omega⟩
  refine ⟨fun w h w2 h2 img => rfl, ?_, ?_⟩
  · intro w h img
    constructor
    · intro hs
      by_contra hlt
      push_neg at hlt
      unfold display_4Gray at hs
      rw [hnone plane1BitOf img hlt, hnone plane2BitOf img hlt] at hs
      simp at hs
    · intro hlen
      unfold display_4Gray
      rw [hsome plane1BitOf img hlen, hsome plane2BitOf img hlen]
      rfl
  · intro w h img hlen
    refine ⟨_, _, hsome plane1BitOf img hlen, hsome plane2BitOf img hlen,
      by rw [List.length_map, List.length_range], by rw [List.length_map, List.length_range], ?_⟩
    unfold display_4Gray
    rw [hsome plane1BitOf img hlen, hsome plane2BitOf img hlen]

/-- Witness for `c10_display_4Gray_fixed_range`: a 96000-byte all-black
buffer is accepted and produces the two 48000-byte planes. -/
theorem c10_display_4Gray_fixed_range_witness :
    96000 ≤ (List.replicate 96000 (0 : Nat)).length ∧
    (∃ p1 p2, planeLoop plane1BitOf (List.replicate 96000 (0 : Nat)) (List.range 48000) = some p1 ∧
      planeLoop plane2BitOf (List.replicate 96000 (0 : Nat)) (List.range 48000) = some p2 ∧
      p1.length = 48000 ∧ p2.length = 48000 ∧
      display_4Gray 800 480 (List.replicate 96000 (0 : Nat)) =
        some ((EpdTx.cmd 0x24 :: p1.map EpdTx.dat) ++
          (EpdTx.cmd 0x26 :: p2.map EpdTx.dat) ++
          [EpdTx.cmd 0x22, EpdTx.dat 0xC7, EpdTx.cmd 0x20])) :=
  ⟨by rw [List.length_replicate],
    c10_display_4Gray_fixed_range.2.2 800 480 (List.replicate 96000 0)
      (by rw [List.length_replicate])⟩

/-- Counterexample for C1 as stated: a dark-gray sample `0x40` also gets
output bit 0 in the first bitplane.  For the input byte pair `(0x40, 0x00)`
(first sample `0x40`, the rest `0x00`) the source emits `127`
(first bit 0), while the spec's rule "bit 0 only when the sample equals
0xC0, else bit 1" would emit `255`. -/
theorem c1_counterexample :
    gray4OutByte plane1BitOf 0x40 0 = 127 ∧
      gray4OutByte specFirstPlaneBit 0x40 0 = 255 := by
  decide

/-- C1 (amended): in the grayscale repack, the first bitplane (sent to
frame register `0x24`) gets output bit 0 when the 2-bit sample is `0xC0`
or `0x40` and bit 1 when it is `0x00` or `0x80` — not "bit 1 for
everything other than 0xC0" — while the second bitplane (sent to `0x26`
after the first plane completes) gets bit 0 exactly when the sample is
`0xC0` or `0x80`, as claimed; bits are packed high-to-low in processing
order (sample `s` of the byte pair lands at bit `7 - s` of the output
byte), and the two planes are transmitted as 48000-byte blocks to `0x24`
and then `0x26`. -/
theorem c1_grayscale_bitplane_rules :
    (∀ t : Nat, plane1BitOf t =
      if t &&& 0xC0 = 0x00 ∨ t &&& 0xC0 = 0x80 then 1 else 0) ∧
    (∀ t : Nat, plane2BitOf t =
      if t &&& 0xC0 = 0xC0 ∨ t &&& 0xC0 = 0x80 then 0 else 1) ∧
    (∀ u v : Nat, gray4OutByte plane1BitOf u v =
      128 * plane1BitOf u + 64 * plane1BitOf (u <<< 2) +
        32 * plane1BitOf (u <<< 2 <<< 2) + 16 * plane1BitOf (u <<< 2 <<< 2 <<< 2) +
        8 * plane1BitOf v + 4 * plane1BitOf (v <<< 2) +
        2 * plane1BitOf (v <<< 2 <<< 2) + plane1BitOf (v <<< 2 <<< 2 <<< 2)) ∧
    (∀ u v : Nat, gray4OutByte plane2BitOf u v =
      128 * plane2BitOf u + 64 * plane2BitOf (u <<< 2) +
        32 * plane2BitOf (u <<< 2 <<< 2) + 16 * plane2BitOf (u <<< 2 <<< 2 <<< 2) +
        8 * plane2BitOf v + 4 * plane2BitOf (v <<< 2) +
        2 * plane2BitOf (v <<< 2 <<< 2) + plane2BitOf (v <<< 2 <<< 2 <<< 2)) ∧
    (∀ img : List Nat, 96000 ≤ img.length →
      display_4Gray EPD_WIDTH EPD_HEIGHT img =
        some ((EpdTx.cmd 0x24 :: ((List.range 48000).map fun i =>
            EpdTx.dat (gray4OutByte plane1BitOf (img.getD (i * 2) 0) (img.getD (i * 2 + 1) 0)))) ++
          (EpdTx.cmd 0x26 :: ((List.range 48000).map fun i =>
            EpdTx.dat (gray4OutByte plane2BitOf (img.getD (i * 2) 0) (img.getD (i * 2 + 1) 0)))) ++
          [EpdTx.cmd 0x22, EpdTx.dat 0xC7, EpdTx.cmd 0x20])) := by
  refine ⟨?_, ?_, ?_, ?_, ?_⟩
  · intro t
    unfold plane1BitOf
    split_ifs with h1 h2 h3 <;> simp_all
  · intro t
    unfold plane2BitOf
    split_ifs with h1 h2 h3 <;> simp_all
  · intro u v
    exact gray4OutByte_eq_sum plane1BitOf plane1BitOf_le_one u v
  · intro u v
    exact gray4OutByte_eq_sum plane2BitOf plane2BitOf_le_one u v
  · intro img hlen
    have hs1 := planeLoop_eq_map plane1BitOf img _ (range48000_indices_lt img hlen)
    have hs2 := planeLoop_eq_map plane2BitOf img _ (range48000_indices_lt img hlen)
    unfold display_4Gray
    rw [hs1, hs2]
    simp only [List.map_map]
    rfl

/-- Witness for `c1_grayscale_bitplane_rules`: its plane-rule parts at the
four sample values and its transcript part at a concrete 96000-byte
buffer. -/
theorem c1_grayscale_bitplane_rules_witness :
    (plane1BitOf 0x40 = if (0x40 : Nat) &&& 0xC0 = 0x00 ∨ (0x40 : Nat) &&& 0xC0 = 0x80 then 1 else 0) ∧
    (96000 ≤ (List.replicate 96000 (0 : Nat)).length ∧
      display_4Gray EPD_WIDTH EPD_HEIGHT (List.replicate 96000 (0 : Nat)) =
        some ((EpdTx.cmd 0x24 :: ((List.range 48000).map fun i =>
            EpdTx.dat (gray4OutByte plane1BitOf ((List.replicate 96000 (0 : Nat)).getD (i * 2) 0)
              ((List.replicate 96000 (0 : Nat)).getD (i * 2 + 1) 0)))) ++
          (EpdTx.cmd 0x26 :: ((List.range 48000).map fun i =>
            EpdTx.dat (gray4OutByte plane2BitOf ((List.replicate 96000 (0 : Nat)).getD (i * 2) 0)
              ((List.replicate 96000 (0 : Nat)).getD (i * 2 + 1) 0)))) ++
          [EpdTx.cmd 0x22, EpdTx.dat 0xC7, EpdTx.cmd 0x20])) :=
  ⟨c1_grayscale_bitplane_rules.1 0x40,
    by rw [List.length_replicate],
    c1_grayscale_bitplane_rules.2.2.2.2 (List.replicate 96000 0) (by rw [List.length_replicate])⟩

lemma pairList_mem {n m : Nat} {p : Nat × Nat} : p ∈ pairList n m ↔ p.1 < n ∧ p.2 < m := by
  cases p with
  | mk a b =>
    simp [pairList, List.mem_flatMap, List.mem_map, List.mem_range]

lemma foldl_fixed_of {α β : Type _} (f : α → β → α) :
    ∀ (l : List β) (a : α), (∀ x b, b ∈ l → f x b = x) → l.foldl f a = a := by
  intro l
  induction l with
  | nil => intro a _; rfl
  | cons b l ih =>
    intro a h
    rw [List.foldl_cons, h a b (by simp)]
    exact ih a (fun x c hc => h x c (by simp [hc]))

lemma foldl_congr_mem {α β : Type _} (f g : α → β → α) :
    ∀ (l : List β) (a : α), (∀ x b, b ∈ l → f x b = g x b) → l.foldl f a = l.foldl g a := by
  intro l
  induction l with
  | nil => intro a _; rfl
  | cons b l ih =>
    intro a h
    rw [List.foldl_cons, List.foldl_cons, h a b (by simp)]
    exact ih (g a b) (fun x c hc => h x c (by simp [hc]))

lemma foldl_flatMap {α β γ : Type _} (g : β → List γ) (f : α → γ → α) :
    ∀ (l : List β) (a : α),
      (l.flatMap g).foldl f a = l.foldl (fun x b => (g b).foldl f x) a := by
  intro l
  induction l with
  | nil => intro a; rfl
  | cons b l ih =>
    intro a
    rw [List.flatMap_cons, List.foldl_append, List.foldl_cons, ih]

lemma size_foldl_step (step : Array Nat → Nat × Nat → Array Nat)
    (hs : ∀ b p, (step b p).size = b.size) :
    ∀ (l : List (Nat × Nat)) (buf : Array Nat), (l.foldl step buf).size = buf.size := by
  intro l
  induction l with
  | nil => intro buf; rfl
  | cons p l ih =>
    intro buf
    rw [List.foldl_cons, ih, hs]

lemma getElem?_foldl_step (step : Array Nat → Nat × Nat → Array Nat)
    (val : Nat → Nat × Nat → Nat) (i : Nat)
    (hv : ∀ b p, (step b p)[i]? = (b[i]?).map (fun x => val x p)) :
    ∀ (l : List (Nat × Nat)) (buf : Array Nat),
      (l.foldl step buf)[i]? = (buf[i]?).map (fun x => l.foldl val x) := by
  intro l
  induction l with
  | nil =>
    intro buf
    rw [List.foldl_nil]
    cases buf[i]? <;> rfl
  | cons p l ih =>
    intro buf
    rw [List.foldl_cons, ih, hv]
    cases buf[i]? <;> rfl

lemma range_split3 (n a b : Nat) (h : a + b ≤ n) :
    List.range n =
      List.range' 0 a ++ List.range' a b ++ List.range' (a + b) (n - a - b) := by
  have h1 : List.range' 0 a ++ List.range' a b = List.range' 0 (b + a) := by
    have := List.range'_append 0 a b 1
    simpa using this
  have h2 : List.range' 0 (b + a) ++ List.range' (a + b) (n - a - b) = List.range' 0 n := by
    have := List.range'_append 0 (b + a) (n - a - b) 1
    rw [show 0 + 1 * (b + a) = a + b by omega] at this
    rw [show n - a - b + (b + a) = n by omega] at this
    exact this
  rw [List.range_eq_range', h1, h2]

/-- Counterexample for C2 as stated: a 10×10 image (matching neither the
panel's 800×480 nor its transpose 480×800) is not rejected — no
`UnsupportedImageDimensionsError` exists anywhere in the repository — and
`getbuffer` silently returns the untouched 48000-byte all-`0xFF`
background buffer, i.e. it does produce an encoded buffer. -/
theorem c2_counterexample :
    epdGetbuffer 800 480 10 10 (fun _ _ => 0) = Array.mkArray (800 / 8 * 480) 0xFF := by
  unfold epdGetbuffer
  rw [if_neg (by omega), if_neg (by omega)]

/-- C2 (amended): an image whose dimensions match neither `(width, height)`
nor `(height, width)` is not rejected with an error; `getbuffer` runs
neither packing branch and returns the initial background buffer of
`width / 8 * height` bytes of `0xFF` unchanged. -/
theorem c2_mismatched_size_returns_background (W H imw imh : Nat) (pix : Nat → Nat → Nat)
    (h1 : ¬(imw = W ∧ imh = H)) (h2 : ¬(imw = H ∧ imh = W)) :
    epdGetbuffer W H imw imh pix = Array.mkArray (W / 8 * H) 0xFF := by
  unfold epdGetbuffer
  rw [if_neg h1, if_neg h2]

/-- Witness for `c2_mismatched_size_returns_background`: the 10×10 image on
the 800×480 panel. -/
theorem c2_mismatched_size_returns_background_witness :
    (¬((10 : Nat) = 800 ∧ (10 : Nat) = 480)) ∧ (¬((10 : Nat) = 480 ∧ (10 : Nat) = 800)) ∧
    epdGetbuffer 800 480 10 10 (fun _ _ => 255) = Array.mkArray (800 / 8 * 480) 0xFF :=
  ⟨by omega, by omega,
    c2_mismatched_size_returns_background 800 480 10 10 (fun _ _ => 255)
      (by omega) (by omega)⟩

lemma epdGetbuffer_matchBranch (pix : Nat → Nat → Nat) :
    epdGetbuffer 800 480 800 480 pix =
      (pairList 480 800).foldl (clearStep 800 pix) (Array.mkArray 48000 0xFF) := by
  unfold epdGetbuffer
  rw [if_pos ⟨rfl, rfl⟩]

lemma epdGetbuffer_transBranch (pix : Nat → Nat → Nat) :
    epdGetbuffer 800 480 480 800 pix =
      (pairList 800 480).foldl (clearStepT 800 480 pix) (Array.mkArray 48000 0xFF) := by
  unfold epdGetbuffer
  rw [if_neg (by omega), if_pos ⟨rfl, rfl⟩]

lemma clearStep_size (W : Nat) (pix : Nat → Nat → Nat) (b : Array Nat) (p : Nat × Nat) :
    (clearStep W pix b p).size = b.size := by
  unfold clearStep
  split
  · rw [Array.size_modify]
  · rfl

lemma clearStepT_size (W H : Nat) (pix : Nat → Nat → Nat) (b : Array Nat) (p : Nat × Nat) :
    (clearStepT W H pix b p).size = b.size := by
  unfold clearStepT
  split
  · rw [Array.size_modify]
  · rfl

lemma clearStep_getElem? (W : Nat) (pix : Nat → Nat → Nat) (i : Nat) (b : Array Nat)
    (p : Nat × Nat) :
    (clearStep W pix b p)[i]? = (b[i]?).map (fun v =>
      if pix p.2 p.1 = 0 ∧ (p.2 + p.1 * W) / 8 = i then
        v &&& (0xFF ^^^ (0x80 >>> (p.2 % 8)))
      else v) := by
  unfold clearStep
  by_cases h1 : pix p.2 p.1 = 0
  · rw [if_pos h1, Array.getElem?_modify]
    by_cases h2 : (p.2 + p.1 * W) / 8 = i
    · rw [if_pos h2]
      simp [h1, h2]
    · rw [if_neg h2]
      cases b[i]? <;> simp [h1, h2]
  · rw [if_neg h1]
    cases b[i]? <;> simp [h1]

lemma clearStepT_getElem? (W H : Nat) (pix : Nat → Nat → Nat) (i : Nat) (b : Array Nat)
    (p : Nat × Nat) :
    (clearStepT W H pix b p)[i]? = (b[i]?).map (fun v =>
      if pix p.2 p.1 = 0 ∧ (p.1 + (H - p.2 - 1) * W) / 8 = i then
        v &&& (0xFF ^^^ (0x80 >>> (p.1 % 8)))
      else v) := by
  unfold clearStepT
  by_cases h1 : pix p.2 p.1 = 0
  · rw [if_pos h1, Array.getElem?_modify]
    by_cases h2 : (p.1 + (H - p.2 - 1) * W) / 8 = i
    · rw [if_pos h2]
      simp [h1, h2]
    · rw [if_neg h2]
      cases b[i]? <;> simp [h1, h2]
  · rw [if_neg h1]
    cases b[i]? <;> simp [h1]

lemma rowH_ne (pix : Nat → Nat → Nat) (i : Nat) (hi : i < 48000) (y : Nat) (hy : y ≠ i / 100) :
    ∀ v : Nat, (List.range 800).foldl (fun w x =>
      if pix x y = 0 ∧ (x + y * 800) / 8 = i then w &&& (0xFF ^^^ (0x80 >>> (x % 8))) else w) v
      = v := by
  intro v
  apply foldl_fixed_of
  intro w x hx
  have hx800 : x < 800 := List.mem_range.mp hx
  have hne : ¬((x + y * 800) / 8 = i) := by omega
  simp [hne]

lemma rowH_eq (pix : Nat → Nat → Nat) (i : Nat) (hi : i < 48000) :
    ∀ v : Nat, (List.range 800).foldl (fun w x =>
      if pix x (i / 100) = 0 ∧ (x + (i / 100) * 800) / 8 = i then
        w &&& (0xFF ^^^ (0x80 >>> (x % 8)))
      else w) v =
    (List.range 8).foldl (fun w k =>
      if pix (8 * (i % 100) + k) (i / 100) = 0 then w &&& (0xFF ^^^ (0x80 >>> k)) else w) v := by
  intro v
  rw [range_split3 800 (8 * (i % 100)) 8 (by omega), List.foldl_append, List.foldl_append]
  have ea : ∀ w : Nat, (List.range' 0 (8 * (i % 100))).foldl (fun w x =>
      if pix x (i / 100) = 0 ∧ (x + (i / 100) * 800) / 8 = i then
        w &&& (0xFF ^^^ (0x80 >>> (x % 8)))
      else w) w = w := by
    intro w
    apply foldl_fixed_of
    intro w' x hx
    have hxr := List.mem_range'_1.mp hx
    have hne : ¬((x + (i / 100) * 800) / 8 = i) := by omega
    simp [hne]
  have ec : ∀ w : Nat, (List.range' (8 * (i % 100) + 8) (800 - 8 * (i % 100) - 8)).foldl
      (fun w x =>
        if pix x (i / 100) = 0 ∧ (x + (i / 100) * 800) / 8 = i then
          w &&& (0xFF ^^^ (0x80 >>> (x % 8)))
        else w) w = w := by
    intro w
    apply foldl_fixed_of
    intro w' x hx
    have hxr := List.mem_range'_1.mp hx
    have hne : ¬((x + (i / 100) * 800) / 8 = i) := by omega
    simp [hne]
  rw [ea, ec, List.range'_eq_map_range, List.foldl_map]
  apply foldl_congr_mem
  intro w k hk
  have hk8 : k < 8 := List.mem_range.mp hk
  have e1 : (8 * (i % 100) + k + (i / 100) * 800) / 8 = i := by omega
  have e2 : (8 * (i % 100) + k) % 8 = k := by omega
  simp [e1, e2]

lemma valfoldH_eq_byteFold (pix : Nat → Nat → Nat) (i : Nat) (hi : i < 48000) :
    (pairList 480 800).foldl (fun v p =>
      if pix p.2 p.1 = 0 ∧ (p.2 + p.1 * 800) / 8 = i then
        v &&& (0xFF ^^^ (0x80 >>> (p.2 % 8)))
      else v) 0xFF = byteFoldH pix i := by
  unfold pairList
  rw [foldl_flatMap]
  rw [foldl_congr_mem _ (fun v y => (List.range 800).foldl (fun w x =>
      if pix x y = 0 ∧ (x + y * 800) / 8 = i then w &&& (0xFF ^^^ (0x80 >>> (x % 8))) else w) v)
      _ _ (by intro v y hy; rw [List.foldl_map])]
  rw [range_split3 480 (i / 100) 1 (by omega), List.foldl_append, List.foldl_append]
  have e1 : ∀ v : Nat, (List.range' 0 (i / 100)).foldl (fun v y =>
      (List.range 800).foldl (fun w x =>
        if pix x y = 0 ∧ (x + y * 800) / 8 = i then w &&& (0xFF ^^^ (0x80 >>> (x % 8))) else w) v)
      v = v := by
    intro v
    apply foldl_fixed_of
    intro w y hy
    have hyr := List.mem_range'_1.mp hy
    exact rowH_ne pix i hi y (by omega) w
  have e3 : ∀ v : Nat, (List.range' (i / 100 + 1) (480 - i / 100 - 1)).foldl (fun v y =>
      (List.range 800).foldl (fun w x =>
        if pix x y = 0 ∧ (x + y * 800) / 8 = i then w &&& (0xFF ^^^ (0x80 >>> (x % 8))) else w) v)
      v = v := by
    intro v
    apply foldl_fixed_of
    intro w y hy
    have hyr := List.mem_range'_1.mp hy
    exact rowH_ne pix i hi y (by omega) w
  rw [e1, List.range'_one, List.foldl_cons, List.foldl_nil, e3]
  exact rowH_eq pix i hi 0xFF

lemma getbufferH_byte (pix : Nat → Nat → Nat) (i : Nat) (hi : i < 48000) :
    (epdGetbuffer 800 480 800 480 pix)[i]? = some (byteFoldH pix i) := by
  rw [epdGetbuffer_matchBranch]
  rw [getElem?_foldl_step (clearStep 800 pix)
      (fun v p =>
        if pix p.2 p.1 = 0 ∧ (p.2 + p.1 * 800) / 8 = i then
          v &&& (0xFF ^^^ (0x80 >>> (p.2 % 8)))
        else v) i
      (fun b p => clearStep_getElem? 800 pix i b p)]
  rw [Array.getElem?_eq_getElem (by rw [Array.size_mkArray]; exact hi), Array.getElem_mkArray]
  rw [Option.map_some']
  exact congrArg some (valfoldH_eq_byteFold pix i hi)

lemma rowT_ne (pix : Nat → Nat → Nat) (i : Nat) (hi : i < 48000) (y : Nat) (hy800 : y < 800)
    (hy : ¬(8 * (i % 100) ≤ y ∧ y < 8 * (i % 100) + 8)) :
    ∀ v : Nat, (List.range 480).foldl (fun w x =>
      if pix x y = 0 ∧ (y + (480 - x - 1) * 800) / 8 = i then
        w &&& (0xFF ^^^ (0x80 >>> (y % 8)))
      else w) v = v := by
  intro v
  apply foldl_fixed_of
  intro w x hx
  have hx480 : x < 480 := List.mem_range.mp hx
  have hne : ¬((y + (480 - x - 1) * 800) / 8 = i) := by omega
  simp [hne]

lemma rowT_hit (pix : Nat → Nat → Nat) (i : Nat) (hi : i < 48000) (y : Nat)
    (hy1 : 8 * (i % 100) ≤ y) (hy2 : y < 8 * (i % 100) + 8) :
    ∀ v : Nat, (List.range 480).foldl (fun w x =>
      if pix x y = 0 ∧ (y + (480 - x - 1) * 800) / 8 = i then
        w &&& (0xFF ^^^ (0x80 >>> (y % 8)))
      else w) v =
    (if pix (479 - i / 100) y = 0 then v &&& (0xFF ^^^ (0x80 >>> (y % 8))) else v) := by
  intro v
  rw [range_split3 480 (479 - i / 100) 1 (by omega), List.foldl_append, List.foldl_append]
  have ea : ∀ w : Nat, (List.range' 0 (479 - i / 100)).foldl (fun w x =>
      if pix x y = 0 ∧ (y + (480 - x - 1) * 800) / 8 = i then
        w &&& (0xFF ^^^ (0x80 >>> (y % 8)))
      else w) w = w := by
    intro w
    apply foldl_fixed_of
    intro w' x hx
    have hxr := List.mem_range'_1.mp hx
    have hne : ¬((y + (480 - x - 1) * 800) / 8 = i) := by omega
    simp [hne]
  have ec : ∀ w : Nat, (List.range' (479 - i / 100 + 1) (480 - (479 - i / 100) - 1)).foldl
      (fun w x =>
        if pix x y = 0 ∧ (y + (480 - x - 1) * 800) / 8 = i then
          w &&& (0xFF ^^^ (0x80 >>> (y % 8)))
        else w) w = w := by
    intro w
    apply foldl_fixed_of
    intro w' x hx
    have hxr := List.mem_range'_1.mp hx
    have hne : ¬((y + (480 - x - 1) * 800) / 8 = i) := by omega
    simp [hne]
  rw [ea, List.range'_one, List.foldl_cons, List.foldl_nil, ec]
  have e1 : (y + (480 - (479 - i / 100) - 1) * 800) / 8 = i := by omega
  simp [e1]

lemma valfoldT_eq_byteFold (pix : Nat → Nat → Nat) (i : Nat) (hi : i < 48000) :
    (pairList 800 480).foldl (fun v p =>
      if pix p.2 p.1 = 0 ∧ (p.1 + (480 - p.2 - 1) * 800) / 8 = i then
        v &&& (0xFF ^^^ (0x80 >>> (p.1 % 8)))
      else v) 0xFF = byteFoldH (rotatePix pix) i := by
  unfold pairList
  rw [foldl_flatMap]
  rw [foldl_congr_mem _ (fun v y => (List.range 480).foldl (fun w x =>
      if pix x y = 0 ∧ (y + (480 - x - 1) * 800) / 8 = i then
        w &&& (0xFF ^^^ (0x80 >>> (y % 8)))
      else w) v)
      _ _ (by intro v y hy; rw [List.foldl_map])]
  rw [range_split3 800 (8 * (i % 100)) 8 (by omega), List.foldl_append, List.foldl_append]
  have e1 : ∀ v : Nat, (List.range' 0 (8 * (i % 100))).foldl (fun v y =>
      (List.range 480).foldl (fun w x =>
        if pix x y = 0 ∧ (y + (480 - x - 1) * 800) / 8 = i then
          w &&& (0xFF ^^^ (0x80 >>> (y % 8)))
        else w) v) v = v := by
    intro v
    apply foldl_fixed_of
    intro w y hy
    have hyr := List.mem_range'_1.mp hy
    exact rowT_ne pix i hi y (by omega) (by omega) w
  have e3 : ∀ v : Nat, (List.range' (8 * (i % 100) + 8) (800 - 8 * (i % 100) - 8)).foldl
      (fun v y =>
        (List.range 480).foldl (fun w x =>
          if pix x y = 0 ∧ (y + (480 - x - 1) * 800) / 8 = i then
            w &&& (0xFF ^^^ (0x80 >>> (y % 8)))
          else w) v) v = v := by
    intro v
    apply foldl_fixed_of
    intro w y hy
    have hyr := List.mem_range'_1.mp hy
    exact rowT_ne pix i hi y (by omega) (by omega) w
  rw [e1, e3]
  rw [foldl_congr_mem _ (fun v y =>
      if pix (479 - i / 100) y = 0 then v &&& (0xFF ^^^ (0x80 >>> (y % 8))) else v)
      _ _ (by
        intro v y hy
        have hyr := List.mem_range'_1.mp hy
        exact rowT_hit pix i hi y (by omega) (by omega) v)]
  rw [List.range'_eq_map_range, List.foldl_map]
  unfold byteFoldH
  apply foldl_congr_mem
  intro w k hk
  have hk8 : k < 8 := List.mem_range.mp hk
  have e2 : (8 * (i % 100) + k) % 8 = k := by omega
  simp [rotatePix, e2]

lemma getbufferV_byte (pix : Nat → Nat → Nat) (i : Nat) (hi : i < 48000) :
    (epdGetbuffer 800 480 480 800 pix)[i]? = some (byteFoldH (rotatePix pix) i) := by
  rw [epdGetbuffer_transBranch]
  rw [getElem?_foldl_step (clearStepT 800 480 pix)
      (fun v p =>
        if pix p.2 p.1 = 0 ∧ (p.1 + (480 - p.2 - 1) * 800) / 8 = i then
          v &&& (0xFF ^^^ (0x80 >>> (p.1 % 8)))
        else v) i
      (fun b p => clearStepT_getElem? 800 480 pix i b p)]
  rw [Array.getElem?_eq_getElem (by rw [Array.size_mkArray]; exact hi), Array.getElem_mkArray]
  rw [Option.map_some']
  exact congrArg some (valfoldT_eq_byteFold pix i hi)

lemma epdGetbufferH_size (pix : Nat → Nat → Nat) :
    (epdGetbuffer 800 480 800 480 pix).size = 48000 := by
  rw [epdGetbuffer_matchBranch, size_foldl_step _ (clearStep_size 800 pix), Array.size_mkArray]

lemma epdGetbufferV_size (pix : Nat → Nat → Nat) :
    (epdGetbuffer 800 480 480 800 pix).size = 48000 := by
  rw [epdGetbuffer_transBranch, size_foldl_step _ (clearStepT_size 800 480 pix),
    Array.size_mkArray]

/-- C7: `getbuffer` on an all-white (every pixel 255) 800×480 image
returns the buffer of `width / 8 × height = 48000` bytes, all `0xFF`; on
an all-black (every pixel 0) 800×480 image it returns a buffer of the same
length, all `0x00`. -/
theorem c7_encode_monochrome_extremes :
    (epdGetbuffer 800 480 800 480 (fun _ _ => 255)).size = 800 / 8 * 480 ∧
    epdGetbuffer 800 480 800 480 (fun _ _ => 255) = Array.mkArray (800 / 8 * 480) 0xFF ∧
    (epdGetbuffer 800 480 800 480 (fun _ _ => 0)).size = 800 / 8 * 480 ∧
    epdGetbuffer 800 480 800 480 (fun _ _ => 0) = Array.mkArray (800 / 8 * 480) 0x00 := by
  refine ⟨epdGetbufferH_size _, ?_, epdGetbufferH_size _, ?_⟩
  · rw [epdGetbuffer_matchBranch]
    rw [foldl_fixed_of _ _ _ (by
      intro b p hp
      unfold clearStep
      simp)]
  · apply Array.ext
    · rw [epdGetbufferH_size, Array.size_mkArray]
    · intro i h1 h2
      have hi : i < 48000 := by rw [epdGetbufferH_size] at h1; exact h1
      have hb := getbufferH_byte (fun _ _ => 0) i hi
      have hz : byteFoldH (fun _ _ => 0) i = 0 := by
        have hb : byteFoldH (fun _ _ => 0) i =
            (List.range 8).foldl
              (fun v k => if (0 : Nat) = 0 then v &&& (0xFF ^^^ (0x80 >>> k)) else v) 0xFF := rfl
        rw [hb]
        decide
      rw [hz, Array.getElem?_eq_getElem h1] at hb
      rw [Option.some.injEq] at hb
      rw [hb, Array.getElem_mkArray]

/-- C8: encoding a transposed 480×800 image through the
transposed-orientation branch (remap `newx = y`, `newy = 479 - x`) is
byte-for-byte identical to first rotating the image 90° (counterclockwise,
`rotatePix`) and then encoding the resulting 800×480 image through the
identity-orientation branch. -/
theorem c8_orientation_equivalence (pix : Nat → Nat → Nat) :
    epdGetbuffer 800 480 480 800 pix = epdGetbuffer 800 480 800 480 (rotatePix pix) := by
  apply Array.ext
  · rw [epdGetbufferV_size, epdGetbufferH_size]
  · intro i h1 h2
    have hi : i < 48000 := by rw [epdGetbufferV_size] at h1; exact h1
    have hv := getbufferV_byte pix i hi
    have hh := getbufferH_byte (rotatePix pix) i hi
    rw [Array.getElem?_eq_getElem h1] at hv
    rw [Array.getElem?_eq_getElem h2] at hh
    rw [Option.some.injEq] at hv hh
    rw [hv, hh]

lemma foldl_congr_invariant {α β : Type _} (R : α → α → Prop) (f : α → β → α)
    (l : List β) :
    ∀ a a' : α, R a a' →
      (∀ x x' b, b ∈ l → R x x' → R (f x b) (f x' b)) →
      R (l.foldl f a) (l.foldl f a') := by
  induction l with
  | nil => intro a a' h _; exact h
  | cons b l ih =>
    intro a a' h hstep
    rw [List.foldl_cons, List.foldl_cons]
    exact ih (f a b) (f a' b) (hstep a a' b (by simp) h)
      (fun x x' c hc hr => hstep x x' c (by simp [hc]) hr)

lemma gray4StepM_invariant (W imw imh : Nat) (p : Nat × Nat)
    (hp : p.1 < imh ∧ p.2 < imw)
    (x x' : (Nat → Nat → Nat) × Nat × Array Nat)
    (hR : (∀ a, a < imw → ∀ b, b < imh → x.1 a b = x'.1 a b) ∧
      x.2.1 = x'.2.1 ∧ x.2.2 = x'.2.2) :
    (∀ a, a < imw → ∀ b, b < imh →
        (gray4StepM W x p).1 a b = (gray4StepM W x' p).1 a b) ∧
      (gray4StepM W x p).2.1 = (gray4StepM W x' p).2.1 ∧
      (gray4StepM W x p).2.2 = (gray4StepM W x' p).2.2 := by
  obtain ⟨hpx, hn, hbuf⟩ := hR
  have h1 : ∀ a, a < imw → ∀ b, b < imh →
      (gray4StepM W x p).1 a b = (gray4StepM W x' p).1 a b := by
    intro a ha b hb
    show (if a = p.2 ∧ b = p.1 then gray4Remap (x.1 p.2 p.1) else x.1 a b) =
      (if a = p.2 ∧ b = p.1 then gray4Remap (x'.1 p.2 p.1) else x'.1 a b)
    by_cases hab : a = p.2 ∧ b = p.1
    · rw [if_pos hab, if_pos hab, hpx p.2 hp.2 p.1 hp.1]
    · rw [if_neg hab, if_neg hab]
      exact hpx a ha b hb
  refine ⟨h1, ?_, ?_⟩
  · show x.2.1 + 1 = x'.2.1 + 1
    rw [hn]
  · show (if (x.2.1 + 1) % 4 = 0 then
        x.2.2.setD ((p.2 + p.1 * W) / 4)
          (((gray4StepM W x p).1 (p.2 - 3) p.1 &&& 0xC0) |||
            (((gray4StepM W x p).1 (p.2 - 2) p.1 &&& 0xC0) >>> 2) |||
            (((gray4StepM W x p).1 (p.2 - 1) p.1 &&& 0xC0) >>> 4) |||
            (((gray4StepM W x p).1 p.2 p.1 &&& 0xC0) >>> 6))
      else x.2.2) =
      (if (x'.2.1 + 1) % 4 = 0 then
        x'.2.2.setD ((p.2 + p.1 * W) / 4)
          (((gray4StepM W x' p).1 (p.2 - 3) p.1 &&& 0xC0) |||
            (((gray4StepM W x' p).1 (p.2 - 2) p.1 &&& 0xC0) >>> 2) |||
            (((gray4StepM W x' p).1 (p.2 - 1) p.1 &&& 0xC0) >>> 4) |||
            (((gray4StepM W x' p).1 p.2 p.1 &&& 0xC0) >>> 6))
      else x'.2.2)
    rw [hn, hbuf, h1 (p.2 - 3) (by omega) p.1 hp.1, h1 (p.2 - 2) (by omega) p.1 hp.1,
      h1 (p.2 - 1) (by omega) p.1 hp.1, h1 p.2 hp.2 p.1 hp.1]

lemma gray4StepT_invariant (W H imw imh : Nat) (p : Nat × Nat)
    (hp : p.1 < imw ∧ p.2 < imh)
    (x x' : (Nat → Nat → Nat) × Nat × Array Nat)
    (hR : (∀ a, a < imw → ∀ b, b < imh → x.1 a b = x'.1 a b) ∧
      x.2.1 = x'.2.1 ∧ x.2.2 = x'.2.2) :
    (∀ a, a < imw → ∀ b, b < imh →
        (gray4StepT W H x p).1 a b = (gray4StepT W H x' p).1 a b) ∧
      (gray4StepT W H x p).2.1 = (gray4StepT W H x' p).2.1 ∧
      (gray4StepT W H x p).2.2 = (gray4StepT W H x' p).2.2 := by
  obtain ⟨hpx, hn, hbuf⟩ := hR
  have h1 : ∀ a, a < imw → ∀ b, b < imh →
      (gray4StepT W H x p).1 a b = (gray4StepT W H x' p).1 a b := by
    intro a ha b hb
    show (if a = p.1 ∧ b = p.2 then gray4Remap (x.1 p.1 p.2) else x.1 a b) =
      (if a = p.1 ∧ b = p.2 then gray4Remap (x'.1 p.1 p.2) else x'.1 a b)
    by_cases hab : a = p.1 ∧ b = p.2
    · rw [if_pos hab, if_pos hab, hpx p.1 hp.1 p.2 hp.2]
    · rw [if_neg hab, if_neg hab]
      exact hpx a ha b hb
  refine ⟨h1, ?_, ?_⟩
  · show x.2.1 + 1 = x'.2.1 + 1
    rw [hn]
  · show (if (x.2.1 + 1) % 4 = 0 then
        x.2.2.setD ((p.2 + (H - p.1 - 1) * W) / 4)
          (((gray4StepT W H x p).1 p.1 (p.2 - 3) &&& 0xC0) |||
            (((gray4StepT W H x p).1 p.1 (p.2 - 2) &&& 0xC0) >>> 2) |||
            (((gray4StepT W H x p).1 p.1 (p.2 - 1) &&& 0xC0) >>> 4) |||
            (((gray4StepT W H x p).1 p.1 p.2 &&& 0xC0) >>> 6))
      else x.2.2) =
      (if (x'.2.1 + 1) % 4 = 0 then
        x'.2.2.setD ((p.2 + (H - p.1 - 1) * W) / 4)
          (((gray4StepT W H x' p).1 p.1 (p.2 - 3) &&& 0xC0) |||
            (((gray4StepT W H x' p).1 p.1 (p.2 - 2) &&& 0xC0) >>> 2) |||
            (((gray4StepT W H x' p).1 p.1 (p.2 - 1) &&& 0xC0) >>> 4) |||
            (((gray4StepT W H x' p).1 p.1 p.2 &&& 0xC0) >>> 6))
      else x'.2.2)
    rw [hn, hbuf, h1 p.1 hp.1 (p.2 - 3) (by omega), h1 p.1 hp.1 (p.2 - 2) (by omega),
      h1 p.1 hp.1 (p.2 - 1) (by omega), h1 p.1 hp.1 p.2 hp.2]

/-- C9: the encoders are pure and deterministic given the pixel data,
target dimensions and orientation: both `getbuffer` and `getbuffer_4Gray`
read the image only inside its `imw × imh` domain, so two pixel maps that
agree there encode to identical buffers.  `getbuffer_4Gray`'s in-place
luminance remap is applied to the pixel map of `image.convert('L')` — in
PIL a fresh copy of the caller's image — so the caller's pixel data is
never written; the embedding reflects this by threading the mutated copy
through the fold state while the input `pix` stays immutable. -/
theorem c9_encoders_pure :
    (∀ (W H imw imh : Nat) (pix pix' : Nat → Nat → Nat),
      (∀ a, a < imw → ∀ b, b < imh → pix a b = pix' a b) →
      epdGetbuffer W H imw imh pix = epdGetbuffer W H imw imh pix') ∧
    (∀ (W H imw imh : Nat) (pix pix' : Nat → Nat → Nat),
      (∀ a, a < imw → ∀ b, b < imh → pix a b = pix' a b) →
      getbuffer_4Gray W H imw imh pix = getbuffer_4Gray W H imw imh pix') := by
  constructor
  · intro W H imw imh pix pix' hagree
    unfold epdGetbuffer
    split_ifs with h1 h2
    · apply foldl_congr_mem
      intro b p hp
      have hm := pairList_mem.mp hp
      unfold clearStep
      rw [hagree p.2 hm.2 p.1 hm.1]
    · apply foldl_congr_mem
      intro b p hp
      have hm := pairList_mem.mp hp
      unfold clearStepT
      rw [hagree p.2 hm.2 p.1 hm.1]
    · rfl
  · intro W H imw imh pix pix' hagree
    unfold getbuffer_4Gray
    split_ifs with h1 h2
    · exact (foldl_congr_invariant
        (fun s s' => (∀ a, a < imw → ∀ b, b < imh → s.1 a b = s'.1 a b) ∧
          s.2.1 = s'.2.1 ∧ s.2.2 = s'.2.2)
        (gray4StepM W) (pairList imh imw)
        (pix, 0, Array.mkArray (W / 4 * H) 0xFF) (pix', 0, Array.mkArray (W / 4 * H) 0xFF)
        ⟨hagree, rfl, rfl⟩
        (fun x x' p hp hr =>
          gray4StepM_invariant W imw imh p (pairList_mem.mp hp) x x' hr)).2.2
    · exact (foldl_congr_invariant
        (fun s s' => (∀ a, a < imw → ∀ b, b < imh → s.1 a b = s'.1 a b) ∧
          s.2.1 = s'.2.1 ∧ s.2.2 = s'.2.2)
        (gray4StepT W H) (pairList imw imh)
        (pix, 0, Array.mkArray (W / 4 * H) 0xFF) (pix', 0, Array.mkArray (W / 4 * H) 0xFF)
        ⟨hagree, rfl, rfl⟩
        (fun x x' p hp hr =>
          gray4StepT_invariant W H imw imh p (pairList_mem.mp hp) x x' hr)).2.2
    · rfl

/-- Witness for `c9_encoders_pure`: two pixel maps agreeing on the 8×1
domain but differing outside it encode identically at `W = 8`, `H = 1`. -/
theorem c9_encoders_pure_witness :
    (∀ a, a < 8 → ∀ b, b < 1 →
      (fun _ _ => 0xC0 : Nat → Nat → Nat) a b =
        (fun a b => if a < 8 ∧ b < 1 then 0xC0 else 0 : Nat → Nat → Nat) a b) ∧
    epdGetbuffer 8 1 8 1 (fun _ _ => 0xC0) =
      epdGetbuffer 8 1 8 1 (fun a b => if a < 8 ∧ b < 1 then 0xC0 else 0) ∧
    getbuffer_4Gray 8 1 8 1 (fun _ _ => 0xC0) =
      getbuffer_4Gray 8 1 8 1 (fun a b => if a < 8 ∧ b < 1 then 0xC0 else 0) :=
  ⟨by decide,
    c9_encoders_pure.1 8 1 8 1 _ _ (by decide),
    c9_encoders_pure.2 8 1 8 1 _ _ (by decide)⟩
